import Mathlib

/-!
Verification of the tag/flag catalog subsystem of the discordlist backend-common
library.

The development embeds the code of the tag subsystem into Lean:

* the arbitrary-precision bitmask codec of the catalog handler, translating
  the decode and encode loops over an ordered registry snapshot of flag
  descriptors (a map from tag name to a descriptor holding a big-integer bit
  weight, a deprecation marker and a category label);
* the strict JSON parse of the multi-tag collection, the singular-tag
  collection with its case-insensitive lookup, and the lenient storage-column
  decoders of both collections;
* the process-wide registry stores, modelled by explicit state passing over
  the published snapshots.

Big integers are modelled as Lean integers; the bitwise AND and OR of the
Rust big-integer library follow two-complement semantics, matched here by the
Mathlib integer bitwise operations. The ordered map is modelled as an
association list whose well-formedness predicate asserts strictly increasing
keys under the byte-lexicographic string order used by the map in the code.
-/

namespace TagCatalog

/-! ### String order (byte-lexicographic, as the ordered map key order) -/

/-- Lexicographic comparison of character lists by code point, matching the
ordered-map key comparison of strings in the code (byte order over UTF-8,
which coincides with code-point order). -/
def charListLt : List Char → List Char → Bool
  | [], [] => false
  | [], _ :: _ => true
  | _ :: _, [] => false
  | a :: as, b :: bs =>
    if a.toNat < b.toNat then true
    else if b.toNat < a.toNat then false
    else charListLt as bs

/-- Strict lexicographic order on strings, the registry key order. -/
def strLt (a b : String) : Bool := charListLt a.data b.data

/-- ASCII-aware lowercasing of a string, modelling the lowercase conversion
applied by the code to candidate tag names before lookup. -/
def strToLower (s : String) : String := ⟨s.data.map Char.toLower⟩

/-! ### Data model of the catalog handler -/

/-- A flag descriptor of the catalog: bit weight, category label and
deprecation marker, exactly the fields of the handler descriptor struct. -/
structure Flag where
  flag : Int
  category : String
  depreciated : Bool
deriving DecidableEq

/-- The validated projection of a tag produced by the bitmask decoder and the
multi-tag collection: a name together with its category. -/
structure VisibleTag where
  name : String
  category : String
deriving DecidableEq

/-- A registry snapshot: the ordered map from tag name to descriptor,
modelled as an association list in map iteration order. -/
abbrev Registry := List (String × Flag)

/-- Well-formedness of a registry snapshot: entries appear in strictly
increasing key order, as the ordered map guarantees. -/
def Registry.WF (r : Registry) : Prop :=
  r.Pairwise (fun a b => strLt a.1 b.1 = true)

instance (r : Registry) : Decidable r.WF :=
  inferInstanceAs
    (Decidable (r.Pairwise fun (a b : String × Flag) => strLt a.1 b.1 = true))

/-- Exact-match lookup of a key in the registry, the map get operation
(first match; under well-formedness keys are unique). -/
def lookupFlag (name : String) : Registry → Option Flag
  | [] => none
  | (k, v) :: rest => if k = name then some v else lookupFlag name rest

/-! ### Bitmask codec (catalog handler) -/

/-- Bitmask decode: walk the registry in key order and emit a visible tag for
every descriptor that is not deprecated and whose bit weight has a non-zero
bitwise AND with the bitmask. -/
def to_named_flags (flags : Int) : Registry → List VisibleTag
  | [] => []
  | (key, value) :: rest =>
    if value.depreciated = false ∧ Int.land flags value.flag ≠ 0 then
      ⟨key, value.category⟩ :: to_named_flags flags rest
    else
      to_named_flags flags rest

/-- The body of the encoder loop: look the candidate name up in the registry
and OR its bit weight into the accumulator when it is present with the
deprecation marker unset; otherwise leave the accumulator unchanged. -/
def encodeStep (lookup : Registry) (flags : Int) (named_flag : String) : Int :=
  match lookupFlag named_flag lookup with
  | some val => if val.depreciated = false then Int.lor flags val.flag else flags
  | none => flags

/-- Bitmask encode: start from zero and fold the encoder loop body over the
candidate names. -/
def from_named_flags (named : List String) (lookup : Registry) : Int :=
  named.foldl (encodeStep lookup) 0

/-- The bit weight a single candidate name contributes to the encoder: the
descriptor bit weight when the name is present and not deprecated, zero
otherwise. -/
def wflag (r : Registry) (n : String) : Int :=
  match lookupFlag n r with
  | some f => if f.depreciated = false then f.flag else 0
  | none => 0

/-- The concrete registry of the specification examples: keys Music (bit 1),
Moderation (bit 2), Utility (bit 4), none deprecated, listed in key order. -/
def Rbots : Registry :=
  [("Moderation", ⟨2, "", false⟩), ("Music", ⟨1, "", false⟩), ("Utility", ⟨4, "", false⟩)]

/-! ### Integer bitwise lemmas -/

theorem int_testBit_zero_bit (k : ℕ) : (0 : ℤ).testBit k = false :=
  Nat.zero_testBit k

theorem nat_lt_two_pow_add (a b : ℕ) : a < 2 ^ (a + b) :=
  lt_of_lt_of_le (Nat.lt_two_pow a)
    (Nat.pow_le_pow_right (by decide) (Nat.le_add_right a b))

theorem nat_lt_two_pow_add_left (a b : ℕ) : b < 2 ^ (a + b) := by
  rw [Nat.add_comm]
  exact nat_lt_two_pow_add b a

/-- Two integers with equal bits at every position are equal. -/
theorem int_testBit_ext {m n : ℤ} (h : ∀ k, m.testBit k = n.testBit k) : m = n := by
  cases m with
  | ofNat a =>
    cases n with
    | ofNat b => exact congrArg Int.ofNat (Nat.eq_of_testBit_eq h)
    | negSucc b =>
      exfalso
      have hk : Nat.testBit a (a + b) = !(Nat.testBit b (a + b)) := h (a + b)
      rw [Nat.testBit_lt_two_pow (nat_lt_two_pow_add a b),
        Nat.testBit_lt_two_pow (nat_lt_two_pow_add_left a b)] at hk
      exact Bool.noConfusion hk
  | negSucc a =>
    cases n with
    | ofNat b =>
      exfalso
      have hk : (!(Nat.testBit a (a + b))) = Nat.testBit b (a + b) := h (a + b)
      rw [Nat.testBit_lt_two_pow (nat_lt_two_pow_add a b),
        Nat.testBit_lt_two_pow (nat_lt_two_pow_add_left a b)] at hk
      exact Bool.noConfusion hk
    | negSucc b =>
      refine congrArg Int.negSucc (Nat.eq_of_testBit_eq fun i => ?_)
      have := h i
      exact Bool.not_inj this

theorem int_lor_comm (m n : ℤ) : m.lor n = n.lor m :=
  int_testBit_ext fun k => by
    rw [Int.testBit_lor, Int.testBit_lor, Bool.or_comm]

theorem int_lor_assoc (m n p : ℤ) : (m.lor n).lor p = m.lor (n.lor p) :=
  int_testBit_ext fun k => by
    rw [Int.testBit_lor, Int.testBit_lor, Int.testBit_lor, Int.testBit_lor, Bool.or_assoc]

theorem int_zero_lor (m : ℤ) : Int.lor 0 m = m :=
  int_testBit_ext fun k => by
    rw [Int.testBit_lor, int_testBit_zero_bit, Bool.false_or]

theorem int_lor_zero (m : ℤ) : Int.lor m 0 = m := by
  rw [int_lor_comm]
  exact int_zero_lor m

theorem int_lor_right_comm (a x y : ℤ) : (a.lor x).lor y = (a.lor y).lor x := by
  rw [int_lor_assoc, int_lor_assoc, int_lor_comm x y]

/-! ### Lemmas about the bitmask codec -/

theorem strLt_irrefl_chars (l : List Char) : charListLt l l = false := by
  induction l with
  | nil => rfl
  | cons a as ih => simp [charListLt, ih]

theorem strLt_irrefl (s : String) : strLt s s = false :=
  strLt_irrefl_chars s.data

/-- In a well-formed registry the keys are pairwise distinct. -/
theorem Registry.WF.keys_nodup {r : Registry} (h : r.WF) : (r.map Prod.fst).Nodup := by
  refine List.pairwise_map.mpr (h.imp ?_)
  intro a b hlt heq
  rw [heq] at hlt
  rw [strLt_irrefl] at hlt
  exact Bool.noConfusion hlt

/-- The decoder is the selection, in registry order, of the non-deprecated
entries whose bit weight meets the bitmask, projected to visible tags. -/
theorem to_named_flags_filter (flags : Int) (r : Registry) :
    to_named_flags flags r
      = (r.filter fun kv =>
          decide (kv.2.depreciated = false ∧ Int.land flags kv.2.flag ≠ 0)).map
          fun kv => ⟨kv.1, kv.2.category⟩ := by
  induction r with
  | nil => rfl
  | cons kv rest ih =>
    obtain ⟨key, value⟩ := kv
    by_cases hc : value.depreciated = false ∧ Int.land flags value.flag ≠ 0
    · simp only [to_named_flags, if_pos hc, List.filter_cons, decide_eq_true_eq, hc,
        if_pos, List.map_cons, ih]
      simp [hc]
    · simp only [to_named_flags, if_neg hc, List.filter_cons, ih]
      simp [hc]

theorem encodeStep_eq (r : Registry) (flags : Int) (n : String) :
    encodeStep r flags n = Int.lor flags (wflag r n) := by
  unfold encodeStep wflag
  cases hl : lookupFlag n r with
  | none => rw [int_lor_zero]
  | some f =>
    by_cases hd : f.depreciated = false
    · simp [hd]
    · simp [hd, int_lor_zero]

theorem foldl_encodeStep (r : Registry) (l : List String) :
    ∀ a : Int, l.foldl (encodeStep r) a = Int.lor a (from_named_flags l r) := by
  induction l with
  | nil =>
    intro a
    simp [from_named_flags, int_lor_zero]
  | cons n l ih =>
    intro a
    show (l.foldl (encodeStep r) (encodeStep r a n)) = _
    rw [ih (encodeStep r a n), encodeStep_eq]
    have hr : from_named_flags (n :: l) r = Int.lor (wflag r n) (from_named_flags l r) := by
      show (l.foldl (encodeStep r) (encodeStep r 0 n)) = _
      rw [ih (encodeStep r 0 n), encodeStep_eq, int_zero_lor]
    rw [hr, int_lor_assoc]

theorem from_named_flags_cons (r : Registry) (n : String) (l : List String) :
    from_named_flags (n :: l) r = Int.lor (wflag r n) (from_named_flags l r) := by
  show (l.foldl (encodeStep r) (encodeStep r 0 n)) = _
  rw [foldl_encodeStep r l (encodeStep r 0 n), encodeStep_eq, int_zero_lor]

/-! ### Claim theorems: bitmask codec -/

/-- C1: bitmask decode emits exactly the names of the non-deprecated
descriptors whose bit weight has a non-zero AND with the bitmask, in
registry key order; deprecated descriptors never appear even with their bit
set, unowned bits are ignored (the output is the projection of the filtered
registry, so no other entry contributes); in particular decoding 7 against
the Music/Moderation/Utility registry yields Moderation, Music, Utility. -/
theorem to_named_flags_spec (flags : Int) (r : Registry) :
    (to_named_flags flags r
      = (r.filter fun kv =>
          decide (kv.2.depreciated = false ∧ Int.land flags kv.2.flag ≠ 0)).map
          fun kv => ⟨kv.1, kv.2.category⟩)
    ∧ (Registry.WF r →
        ((to_named_flags flags r).map VisibleTag.name).Pairwise
            (fun a b => strLt a b = true)
        ∧ ∀ kv ∈ r, kv.2.depreciated = true →
            ∀ t ∈ to_named_flags flags r, t.name ≠ kv.1)
    ∧ (to_named_flags 7 Rbots).map VisibleTag.name = ["Moderation", "Music", "Utility"] := by
  refine ⟨to_named_flags_filter flags r, fun hwf => ⟨?_, ?_⟩, by decide⟩
  · rw [to_named_flags_filter]
    rw [List.map_map]
    refine List.pairwise_map.mpr ?_
    exact ((hwf.imp fun hab => hab).sublist (List.filter_sublist r)).imp fun hab => hab
  · intro kv hkv hdep t ht hname
    rw [to_named_flags_filter] at ht
    obtain ⟨kv2, hkv2, ht2⟩ := List.mem_map.mp ht
    have hkv2r : kv2 ∈ r := List.mem_of_mem_filter hkv2
    have hkv2p := List.of_mem_filter hkv2
    rw [decide_eq_true_eq] at hkv2p
    have hkeys : kv2.1 = kv.1 := by rw [← ht2] at hname; exact hname
    have : kv2 = kv :=
      List.inj_on_of_nodup_map hwf.keys_nodup hkv2r hkv hkeys
    rw [this] at hkv2p
    rw [hdep] at hkv2p
    exact Bool.noConfusion hkv2p.1

/-- Witness for C1 at the concrete example registry, discharging the
well-formedness hypothesis. -/
theorem to_named_flags_spec_witness :
    ((to_named_flags 7 Rbots).map VisibleTag.name).Pairwise
      (fun a b => strLt a b = true) :=
  ((to_named_flags_spec 7 Rbots).2.1 (by decide)).1

/-- C2: bitmask encode starts from zero, ORs in the bit weight of each
candidate name present in the registry with the deprecation marker unset,
and silently skips (without error) any candidate that is absent or
deprecated; encoding Music and Utility against the example registry gives
5. -/
theorem from_named_flags_spec (r : Registry) :
    from_named_flags [] r = 0
    ∧ (∀ n l, from_named_flags (n :: l) r = Int.lor (wflag r n) (from_named_flags l r))
    ∧ (∀ pre post n,
        (lookupFlag n r = none ∨ ∃ f, lookupFlag n r = some f ∧ f.depreciated = true) →
        from_named_flags (pre ++ n :: post) r = from_named_flags (pre ++ post) r)
    ∧ from_named_flags ["Music", "Utility"] Rbots = 5 := by
  refine ⟨rfl, fun n l => from_named_flags_cons r n l, ?_, by decide⟩
  intro pre post n hskip
  have hw : wflag r n = 0 := by
    unfold wflag
    rcases hskip with h | ⟨f, hf, hdep⟩
    · rw [h]
    · rw [hf]
      simp [hdep]
  unfold from_named_flags
  rw [List.foldl_append, List.foldl_append]
  show List.foldl (encodeStep r) (encodeStep r (List.foldl (encodeStep r) 0 pre) n) post = _
  rw [encodeStep_eq, hw, int_lor_zero]

/-- Witness for C2, discharging the skip hypothesis at a name absent from
the example registry. -/
theorem from_named_flags_spec_witness :
    from_named_flags (["Music"] ++ "Cheese" :: ["Utility"]) Rbots
      = from_named_flags (["Music"] ++ ["Utility"]) Rbots :=
  (from_named_flags_spec Rbots).2.2.1 ["Music"] ["Utility"] "Cheese" (Or.inl (by decide))

/-- C3: for the example registry, decode followed by encode is the identity
on every bitmask expressible as an OR of a subset of the registry bit
weights 1, 2 and 4. -/
theorem encode_decode_roundtrip (b₁ b₂ b₃ : Bool) :
    from_named_flags
        ((to_named_flags
            (Int.lor (cond b₁ 1 0) (Int.lor (cond b₂ 2 0) (cond b₃ 4 0))) Rbots).map
          VisibleTag.name)
        Rbots
      = Int.lor (cond b₁ 1 0) (Int.lor (cond b₂ 2 0) (cond b₃ 4 0)) := by
  cases b₁ <;> cases b₂ <;> cases b₃ <;> decide

/-- C10: the encoder is invariant under permutation of its input names: any
two candidate sequences that are permutations of each other produce the
same bitmask, over every registry. -/
theorem from_named_flags_perm_invariant (r : Registry) {l₁ l₂ : List String}
    (h : l₁.Perm l₂) : from_named_flags l₁ r = from_named_flags l₂ r := by
  haveI : RightCommutative (encodeStep r) :=
    ⟨fun b a₁ a₂ => by
      rw [encodeStep_eq, encodeStep_eq, encodeStep_eq, encodeStep_eq, int_lor_right_comm]⟩
  unfold from_named_flags
  exact h.foldl_eq 0

/-- Witness for C10, discharging the permutation hypothesis at a concrete
pair of inputs. -/
theorem from_named_flags_perm_invariant_witness :
    from_named_flags ["Music", "Utility"] Rbots = from_named_flags ["Utility", "Music"] Rbots :=
  from_named_flags_perm_invariant Rbots (by decide)

/-! ### JSON values and parse errors

The JSON layer of the collections is driven by the API framework, which
hands the parser an optional JSON value. The JSON data model is the usual
one; the parse errors of the code are custom messages, modelled here as a
structured error type carrying the same information (the offending name for
the unknown-tag message of the multi-tag parse, the offending JSON value
for the unknown-tag message of the singular parse, and the two payload
messages). -/

/-- A JSON value. -/
inductive Json where
  | null
  | bool (b : Bool)
  | num (n : Int)
  | str (s : String)
  | arr (elems : List Json)
  | obj (fields : List (String × Json))

/-- The parse errors raised by the collections, one constructor per custom
message of the code. -/
inductive ParseErr where
  | unknownTag (value : String)
  | unknownTagValue (value : Json)
  | malformed (msg : String)
  | nullPayload

/-- Deserialization of a JSON array of strings into a string list, failing
on any element that is not a string (the vector-of-strings conversion). -/
def asStringList : List Json → Option (List String)
  | [] => some []
  | Json.str s :: rest => (asStringList rest).map (s :: ·)
  | _ :: _ => none

/-- Deserialization of a JSON value into a string vector: succeeds exactly
on arrays whose elements are all strings. -/
def decodeStringArray : Json → Option (List String)
  | .arr elems => asStringList elems
  | _ => none

/-- Extraction of the string payload of a JSON value, the as-str accessor:
some only on string values. -/
def Json.as_str : Json → Option String
  | .str s => some s
  | _ => none

/-- Modelled from the code's external case-conversion dependency: the title
case transform applied by the multi-tag strict parse to each candidate name
before lookup. Words are split on space, underscore and hyphen separators;
each word is capitalized (first character uppercased, the rest lowercased)
and the words are joined with single spaces. -/
def wordCapitalize : List Char → List Char
  | [] => []
  | c :: cs => Char.toUpper c :: cs.map Char.toLower

/-- Splitting a character list on separator characters. -/
def splitOnSep (sep : Char → Bool) : List Char → List (List Char)
  | [] => [[]]
  | c :: cs =>
    let rest := splitOnSep sep cs
    if sep c then [] :: rest
    else
      match rest with
      | [] => [[c]]
      | w :: ws => (c :: w) :: ws

/-- The title-case canonicalization of a candidate tag name. -/
def to_title_case (s : String) : String :=
  let words :=
    (splitOnSep (fun c => c == ' ' || c == '_' || c == '-') s.data).filter
      (fun w => !w.isEmpty)
  ⟨List.intercalate [' '] (words.map wordCapitalize)⟩

/-! ### Multi-tag collection: strict JSON parse -/

/-- The candidate loop of the multi-tag strict parse: title-case each
candidate, look it up, abort with the unknown-tag error on the first miss,
otherwise accumulate a visible tag per candidate in input order. -/
def parseTagNames (tags : Registry) : List String → Except ParseErr (List VisibleTag)
  | [] => .ok []
  | flag_name :: rest =>
    match lookupFlag (to_title_case flag_name) tags with
    | none => .error (.unknownTag (to_title_case flag_name))
    | some flag =>
      match parseTagNames tags rest with
      | .ok inner => .ok (⟨to_title_case flag_name, flag.category⟩ :: inner)
      | .error e => .error e

/-- The multi-tag JSON parse: an absent payload is rejected, a payload that
is not an array of strings is rejected as malformed, and an array of
strings goes through the strict candidate loop against the given registry
snapshot. -/
def BotTags.parse_from_json (value : Option Json) (tags : Registry) :
    Except ParseErr (List VisibleTag) :=
  match value with
  | some val =>
    match decodeStringArray val with
    | some flags => parseTagNames tags flags
    | none => .error (.malformed "Cannot derive tags")
  | none => .error .nullPayload

/-- The visible tag the strict parse produces for one candidate, when its
canonicalized name is in the registry. -/
def strictTag (tags : Registry) (n : String) : Option VisibleTag :=
  (lookupFlag (to_title_case n) tags).map fun f => ⟨to_title_case n, f.category⟩

theorem asStringList_map_str (names : List String) :
    asStringList (names.map Json.str) = some names := by
  induction names with
  | nil => rfl
  | cons n l ih => simp [asStringList, ih]

theorem filterMap_length_of_isSome {α β : Type} (f : α → Option β) (l : List α)
    (h : ∀ a ∈ l, (f a).isSome = true) : (l.filterMap f).length = l.length := by
  induction l with
  | nil => rfl
  | cons a l ih =>
    obtain ⟨b, hb⟩ := Option.isSome_iff_exists.mp (h a (List.mem_cons_self a l))
    rw [List.filterMap_cons, hb, List.length_cons, ih fun x hx => h x (List.mem_cons_of_mem a hx)]
    exact rfl

theorem parseTagNames_ok (tags : Registry) (names : List String)
    (h : ∀ n ∈ names, (strictTag tags n).isSome = true) :
    parseTagNames tags names = .ok (names.filterMap (strictTag tags)) := by
  induction names with
  | nil => rfl
  | cons n l ih =>
    obtain ⟨t, ht⟩ := Option.isSome_iff_exists.mp (h n (List.mem_cons_self n l))
    obtain ⟨f, hf, htf⟩ := Option.map_eq_some'.mp ht
    simp only [parseTagNames]
    rw [hf, ih fun x hx => h x (List.mem_cons_of_mem n hx)]
    rw [List.filterMap_cons, ht, ← htf]

theorem parseTagNames_err (tags : Registry) (names : List String)
    (h : ∃ n ∈ names, strictTag tags n = none) :
    ∃ bad ∈ names, strictTag tags bad = none
      ∧ parseTagNames tags names = .error (.unknownTag (to_title_case bad)) := by
  induction names with
  | nil => obtain ⟨n, hn, _⟩ := h; exact absurd hn (List.not_mem_nil n)
  | cons n l ih =>
    by_cases hn : strictTag tags n = none
    · refine ⟨n, List.mem_cons_self n l, hn, ?_⟩
      have hl : lookupFlag (to_title_case n) tags = none := Option.map_eq_none'.mp hn
      simp only [parseTagNames]
      rw [hl]
    · obtain ⟨m, hm, hmn⟩ := h
      have hml : m ∈ l := by
        rcases List.mem_cons.mp hm with rfl | hml
        · exact absurd hmn hn
        · exact hml
      obtain ⟨bad, hbad, hbn, hperr⟩ := ih ⟨m, hml, hmn⟩
      refine ⟨bad, List.mem_cons_of_mem n hbad, hbn, ?_⟩
      cases hlk : lookupFlag (to_title_case n) tags with
      | none => exact absurd (Option.map_eq_none'.mpr hlk) hn
      | some g =>
        simp only [parseTagNames]
        rw [hlk, hperr]

/-- C4: the strict JSON parse of the multi-tag collection is all-or-nothing:
when every candidate matches a registry descriptor after canonicalization
the parse succeeds with one visible tag per candidate in input order, and
when some candidate has no match the whole parse fails with a single
unknown-tag error naming the (canonicalized) bad value; in particular
parsing Music and Nonexistent against the example registry fails with an
error naming Nonexistent. -/
theorem parse_from_json_all_or_nothing (tags : Registry) (names : List String) :
    ((∀ n ∈ names, (strictTag tags n).isSome = true) →
      BotTags.parse_from_json (some (.arr (names.map .str))) tags
          = .ok (names.filterMap (strictTag tags))
        ∧ (names.filterMap (strictTag tags)).length = names.length)
    ∧ ((∃ n ∈ names, strictTag tags n = none) →
      ∃ bad ∈ names, strictTag tags bad = none
        ∧ BotTags.parse_from_json (some (.arr (names.map .str))) tags
            = .error (.unknownTag (to_title_case bad)))
    ∧ BotTags.parse_from_json (some (.arr [.str "Music", .str "Nonexistent"])) Rbots
        = .error (.unknownTag "Nonexistent") := by
  have hdec : BotTags.parse_from_json (some (.arr (names.map .str))) tags
      = parseTagNames tags names := by
    show (match decodeStringArray (.arr (names.map .str)) with
      | some flags => parseTagNames tags flags
      | none => .error (.malformed "Cannot derive tags")) = _
    rw [show decodeStringArray (.arr (names.map .str)) = some names from asStringList_map_str names]
  refine ⟨fun h => ⟨?_, filterMap_length_of_isSome _ _ h⟩, fun h => ?_, rfl⟩
  · rw [hdec]
    exact parseTagNames_ok tags names h
  · obtain ⟨bad, hbad, hbn, hperr⟩ := parseTagNames_err tags names h
    exact ⟨bad, hbad, hbn, by rw [hdec, hperr]⟩

/-- Witness for C4, discharging the all-matched hypothesis at a concrete
candidate list. -/
theorem parse_from_json_all_or_nothing_witness :
    BotTags.parse_from_json (some (.arr [.str "Music", .str "Utility"])) Rbots
      = .ok ((["Music", "Utility"] : List String).filterMap (strictTag Rbots)) :=
  ((parse_from_json_all_or_nothing Rbots ["Music", "Utility"]).1 (by decide)).1

/-! ### Singular (pack) collection

The singular collection uses its own descriptor and projection variants:
the descriptor carries a display label and a category, and the projection
carries the raw name, the display label and a category. The registry keys
of this collection are lowercase names. -/

/-- The flag descriptor variant of the singular collection: display label
and category. -/
structure PackFlag where
  display_name : String
  category : String
deriving DecidableEq

/-- The visible-tag projection variant of the singular collection, which
additionally carries the display label. -/
structure PackVisibleTag where
  name : String
  display_name : String
  category : String
deriving DecidableEq

/-- A registry snapshot of the singular collection. -/
abbrev PackRegistry := List (String × PackFlag)

/-- Exact-match lookup in the singular-collection registry. -/
def lookupPackFlag (name : String) : PackRegistry → Option PackFlag
  | [] => none
  | (k, v) :: rest => if k = name then some v else lookupPackFlag name rest

/-- Modelled from the spec: the single-candidate lookup helper imported from
the handler module by the singular collection is absent from the sources
(only its caller is present). Per the spec the singular lookup is
case-insensitive / canonicalized; matching the lowercase-key convention the
code uses on its other singular paths (the JSON parse looks up the
lowercased string and the storage decoder lowercases before lookup), the
candidate is lowercased and looked up exactly. -/
def get_tag (tag : String) (lookup : PackRegistry) : Option PackFlag :=
  lookupPackFlag (strToLower tag) lookup

/-- The singular collection constructor from a raw stored name: on a lookup
hit it holds a projection carrying the raw name as given, the descriptor
display label and an empty category; on a miss it is the default empty
collection. -/
def PackTags.from_raw (tag : String) (lookup : PackRegistry) : Option PackVisibleTag :=
  match get_tag tag lookup with
  | some flag => some ⟨tag, flag.display_name, ""⟩
  | none => none

/-- The singular-tag JSON parse: a string payload is lowercased and looked
up, producing a projection with the lowercased name and the descriptor
display label and category; any other payload, a missing payload, or an
unmatched string is rejected with an error carrying the offending value. -/
def PackTags.parse_from_json (value : Option Json) (tags : PackRegistry) :
    Except ParseErr (Option PackVisibleTag) :=
  match value with
  | some val =>
    match val.as_str.bind
        (fun v => (lookupPackFlag (strToLower v) tags).map (fun f => (v, f))) with
    | some (name, flag) =>
      .ok (some ⟨strToLower name, flag.display_name, flag.category⟩)
    | none => .error (.unknownTagValue val)
  | none => .error .nullPayload

/-- The concrete singular-collection registry used below: lowercase keys in
key order, display labels, and a non-empty category for the music entry to
make category propagation observable. -/
def Rpacks : PackRegistry :=
  [("moderation", ⟨"Moderation", ""⟩), ("music", ⟨"Music", "audio"⟩),
    ("utility", ⟨"Utility", ""⟩)]

/-- Counterexample to C5 as stated: looking up the candidate music yields a
projection whose name is the raw input string, not the registry display
form, and whose category is empty, not the descriptor category. -/
theorem from_raw_counterexample :
    (PackTags.from_raw "music" Rpacks).map PackVisibleTag.name ≠ some "Music"
    ∧ (PackTags.from_raw "music" Rpacks).map PackVisibleTag.category ≠ some "audio" := by
  constructor
  · intro h
    exact absurd h (by decide)
  · intro h
    exact absurd h (by decide)

/-- C5 (amended): the singular constructor lowercases its candidate, looks
it up, and degrades gracefully: on a hit it holds a projection whose name
is the raw candidate as given, whose display label is the descriptor
display label, and whose category is the empty string; on a miss it is the
empty collection and never an error. Looking up music yields the projection
with name music and display label Music; looking up doesnotexist yields
the empty collection. -/
theorem from_raw_amended (r : PackRegistry) (tag : String) :
    (get_tag tag r = none → PackTags.from_raw tag r = none)
    ∧ (∀ f, get_tag tag r = some f → PackTags.from_raw tag r = some ⟨tag, f.display_name, ""⟩)
    ∧ PackTags.from_raw "music" Rpacks = some ⟨"music", "Music", ""⟩
    ∧ PackTags.from_raw "doesnotexist" Rpacks = none := by
  refine ⟨fun h => ?_, fun f h => ?_, by decide, by decide⟩
  · show (match get_tag tag r with
      | some flag => some (⟨tag, flag.display_name, ""⟩ : PackVisibleTag)
      | none => none) = none
    rw [h]
  · show (match get_tag tag r with
      | some flag => some (⟨tag, flag.display_name, ""⟩ : PackVisibleTag)
      | none => none) = _
    rw [h]

/-- Witness for C5 (amended), discharging the lookup-miss hypothesis at a
concrete absent candidate. -/
theorem from_raw_amended_witness : PackTags.from_raw "doesnotexist" Rpacks = none :=
  (from_raw_amended Rpacks "doesnotexist").1 (by decide)

/-- Counterexample to C6 as stated: a JSON null payload for the singular
collection is rejected with an error, not accepted as absence — both the
explicit null value and the missing payload produce errors. -/
theorem pack_parse_null_counterexample :
    PackTags.parse_from_json (some Json.null) Rpacks
        = Except.error (ParseErr.unknownTagValue Json.null)
    ∧ PackTags.parse_from_json none Rpacks = Except.error ParseErr.nullPayload :=
  ⟨rfl, rfl⟩

/-- C6 (amended): the singular-tag JSON parse rejects null payload shapes —
a missing payload fails with the null-payload error and an explicit JSON
null fails with an unknown-tag error carrying the value — while an
unmatched string fails with an error naming the bad value. -/
theorem pack_parse_null_amended (r : PackRegistry) :
    PackTags.parse_from_json none r = .error .nullPayload
    ∧ PackTags.parse_from_json (some .null) r = .error (.unknownTagValue .null)
    ∧ (∀ s, lookupPackFlag (strToLower s) r = none →
        PackTags.parse_from_json (some (.str s)) r = .error (.unknownTagValue (.str s))) := by
  refine ⟨rfl, rfl, fun s h => ?_⟩
  show (match (Json.as_str (Json.str s)).bind
      (fun v => (lookupPackFlag (strToLower v) r).map (fun f => (v, f))) with
    | some (name, flag) =>
      Except.ok (some (⟨strToLower name, flag.display_name, flag.category⟩ : PackVisibleTag))
    | none => Except.error (ParseErr.unknownTagValue (Json.str s))) = _
  rw [show (Json.as_str (Json.str s)).bind
      (fun v => (lookupPackFlag (strToLower v) r).map (fun f => (v, f))) = none by
    show (lookupPackFlag (strToLower s) r).map (fun f => (s, f)) = none
    rw [h]
    exact rfl]

/-- Witness for C6 (amended), discharging the unmatched-string hypothesis at
a concrete unmatched payload. -/
theorem pack_parse_null_amended_witness :
    PackTags.parse_from_json (some (.str "Nonexistent")) Rpacks
      = .error (.unknownTagValue (.str "Nonexistent")) :=
  (pack_parse_null_amended Rpacks).2.2 "Nonexistent" (by decide)

/-! ### Storage column decoding -/

/-- A persisted database column value, covering the column shapes the
decoders distinguish: a set of values, a text value, and other shapes. -/
inductive CqlValue where
  | text (s : String)
  | set (items : List CqlValue)
  | int (n : Int)
  | boolean (b : Bool)
  | blob (bytes : List Nat)
  | empty

/-- The text accessor of a column value: some only on text values. -/
def CqlValue.as_text : CqlValue → Option String
  | .text s => some s
  | _ => none

/-- The error type of the column decoding interface; the tag decoders never
produce it. -/
inductive FromCqlValError where
  | badCqlType
  | badVal

/-- Modelled from the spec: the lenient name-set validation helper called by
the multi-tag collection constructors is absent from the sources (only its
callers are present). Per the spec the lenient policy silently drops any
candidate with no matching descriptor, never fails, and produces visible
tags carrying the descriptor category for every surviving candidate,
preserving input order. -/
def filter_valid_tags (named : List String) (lookup : Registry) : List VisibleTag :=
  named.filterMap fun n => (lookupFlag n lookup).map fun f => VisibleTag.mk n f.category

/-- The multi-tag storage decoder: a set column value has its text elements
run through the lenient validation, and every other shape decodes to the
default empty collection; the result is always a success. -/
def BotTags.from_cql (cql_val : CqlValue) (lookup : Registry) :
    Except FromCqlValError (List VisibleTag) :=
  match cql_val with
  | .set items => .ok (filter_valid_tags (items.filterMap CqlValue.as_text) lookup)
  | _ => .ok []

/-- The singular-tag storage decoder: a text column value is lowercased and
fed to the raw constructor, and every other shape decodes to the default
empty collection; the result is always a success. -/
def PackTags.from_cql (cql_val : CqlValue) (lookup : PackRegistry) :
    Except FromCqlValError (Option PackVisibleTag) :=
  match cql_val with
  | .text s => .ok (PackTags.from_raw (strToLower s) lookup)
  | _ => .ok none

/-- C7: storage decoding never fails on a shape mismatch: a column value
that is not a set decodes, for the multi collection, to a success holding
the default empty collection, and a column value that is not text decodes,
for the singular collection, to a success holding the default empty
collection; a bad persisted shape cannot fail the record load. -/
theorem from_cql_mismatch (bot_r : Registry) (pack_r : PackRegistry) (v : CqlValue) :
    ((∀ items, v ≠ .set items) → BotTags.from_cql v bot_r = .ok [])
    ∧ ((∀ s, v ≠ .text s) → PackTags.from_cql v pack_r = .ok none) := by
  constructor
  · intro h
    cases v with
    | set items => exact absurd rfl (h items)
    | text s => rfl
    | int n => rfl
    | boolean b => rfl
    | blob bytes => rfl
    | empty => rfl
  · intro h
    cases v with
    | text s => exact absurd rfl (h s)
    | set items => rfl
    | int n => rfl
    | boolean b => rfl
    | blob bytes => rfl
    | empty => rfl

/-- Witness for C7 at a concrete mismatched column value (an integer
column value is neither a set nor text). -/
theorem from_cql_mismatch_witness :
    BotTags.from_cql (.int 42) Rbots = .ok []
    ∧ PackTags.from_cql (.int 42) Rpacks = .ok none :=
  ⟨(from_cql_mismatch Rbots Rpacks (.int 42)).1 (fun _items h => CqlValue.noConfusion h),
    (from_cql_mismatch Rbots Rpacks (.int 42)).2 (fun _s h => CqlValue.noConfusion h)⟩

/-! ### Registry stores

The two process-wide stores hold the published snapshot behind an atomic
swap cell initialized on first access to the empty registry. The store is
modelled by explicit state passing: the state is the currently published
snapshot, initially empty; a publish replaces it, a read returns it. -/

/-- The initial multi-tag store content: the default (empty) registry. -/
def botStoreInit : Registry := []

/-- Publishing a multi-tag registry replaces the store content. -/
def set_bot_tags (_state : Registry) (lookup : Registry) : Registry := lookup

/-- Reading the multi-tag store returns the current content. -/
def get_bot_tags (state : Registry) : Registry := state

/-- The multi-tag store content after a sequence of publishes. -/
def runBotPublishes (ms : List Registry) : Registry :=
  ms.foldl set_bot_tags botStoreInit

/-- The initial singular-tag store content: the default (empty) registry. -/
def packStoreInit : PackRegistry := []

/-- Publishing a singular-tag registry replaces the store content. -/
def set_pack_tags (_state : PackRegistry) (lookup : PackRegistry) : PackRegistry := lookup

/-- Reading the singular-tag store returns the current content. -/
def get_pack_tags (state : PackRegistry) : PackRegistry := state

/-- The singular-tag store content after a sequence of publishes. -/
def runPackPublishes (ms : List PackRegistry) : PackRegistry :=
  ms.foldl set_pack_tags packStoreInit

/-- C8: reading either registry store never fails: before any publish the
read returns the empty mapping (not an error), and after any sequence of
publishes ending in registry M the read returns exactly M. -/
theorem registry_store_current (ms : List Registry) (pms : List PackRegistry)
    (M : Registry) (PM : PackRegistry) :
    get_bot_tags (runBotPublishes []) = []
    ∧ get_bot_tags (runBotPublishes (ms ++ [M])) = M
    ∧ get_pack_tags (runPackPublishes []) = []
    ∧ get_pack_tags (runPackPublishes (pms ++ [PM])) = PM := by
  refine ⟨rfl, ?_, rfl, ?_⟩
  · unfold runBotPublishes
    rw [List.foldl_append]
    rfl
  · unfold runPackPublishes
    rw [List.foldl_append]
    rfl

end TagCatalog
